import Mathlib

/-!
Verification development for the grounding and citation-resolution engine of the
`genai_music_chat` repository.

The Python sources under `src/genai_chat/` are shallowly embedded as executable
Lean definitions:

* `src/genai_chat/utils.py` — `compare_strings` (string similarity dispatch);
* `src/genai_chat/core.py` — `Bot._extract_citations` (two-phase fuzzy citation
  resolution over the staged corpus);
* `src/genai_chat/openai.py` / `src/genai_chat/palm.py` — the `chat` exchange
  pipeline (external LLM calls are inputs via an oracle structure, per the
  spec's external-interface section).

Python floats produced by the similarity layer are modelled as rationals (each
score is an integer percentage divided by 100, so rational arithmetic is
faithful for the comparisons the code performs).  Python's insertion-ordered
`dict` is modelled as an insertion-ordered association list.

The six fuzzywuzzy scorers themselves are a third-party dependency whose code
is not part of this repository; they are modelled from the spec (see the doc
comments starting with "Modelled from the spec").
-/

namespace GenAIChat

/-! ### Character-list string helpers

The Python code works on `str`; we work on `String.data : List Char` so that
every operation is structurally recursive and kernel-computable. -/

/-- Levenshtein edit distance with a structural fuel argument (the fuel is
always at least `|a| + |b|` when called through `lev`, so the `0`-fuel branch
is unreachable; it is only present to make the recursion structural). -/
def levFuel : Nat → List Char → List Char → Nat
  | _, [], ys => ys.length
  | _, x :: xs, [] => (x :: xs).length
  | 0, _ :: _, _ :: _ => 0
  | fuel + 1, x :: xs, y :: ys =>
    if x = y then levFuel fuel xs ys
    else 1 + min (levFuel fuel xs ys) (min (levFuel fuel (x :: xs) ys) (levFuel fuel xs (y :: ys)))

/-- Levenshtein edit distance between two character lists. -/
def lev (a b : List Char) : Nat := levFuel (a.length + b.length) a b

theorem levFuel_self (a : List Char) : ∀ fuel, levFuel fuel a a = 0 := by
  induction a with
  | nil => intro fuel; cases fuel <;> rfl
  | cons x xs ih =>
    intro fuel
    cases fuel with
    | zero => rfl
    | succ f => simp [levFuel, ih]

theorem lev_self (a : List Char) : lev a a = 0 := levFuel_self a _

theorem levFuel_le_max : ∀ (fuel : Nat) (a b : List Char),
    levFuel fuel a b ≤ max a.length b.length := by
  intro fuel
  induction fuel with
  | zero =>
    intro a b
    cases a with
    | nil => simp [levFuel]
    | cons x xs =>
      cases b with
      | nil => simp [levFuel]
      | cons y ys => simp [levFuel]
  | succ f ih =>
    intro a b
    cases a with
    | nil => simp [levFuel]
    | cons x xs =>
      cases b with
      | nil => simp [levFuel]
      | cons y ys =>
        by_cases hxy : x = y
        · simp only [levFuel, if_pos hxy]
          calc levFuel f xs ys ≤ max xs.length ys.length := ih xs ys
            _ ≤ max (x :: xs).length (y :: ys).length := by
                simp only [List.length_cons]
                exact max_le_max (Nat.le_succ _) (Nat.le_succ _)
        · simp only [levFuel, if_neg hxy]
          calc 1 + min (levFuel f xs ys) (min (levFuel f (x :: xs) ys) (levFuel f xs (y :: ys)))
              ≤ 1 + levFuel f xs ys := by
                exact Nat.add_le_add_left (Nat.min_le_left _ _) 1
            _ ≤ 1 + max xs.length ys.length := Nat.add_le_add_left (ih xs ys) 1
            _ = max (x :: xs).length (y :: ys).length := by
                simp only [List.length_cons, Nat.add_comm 1, Nat.add_max_add_right]

theorem lev_le_max (a b : List Char) : lev a b ≤ max a.length b.length :=
  levFuel_le_max _ a b

/-! ### The six fuzzy scorers

Modelled from the spec.  The scorers (`fuzzywuzzy.fuzz.ratio`, `partial_ratio`,
`token_sort_ratio`, `token_set_ratio` and their `partial_token_*` variants)
are imported by `src/genai_chat/utils.py` from the `fuzzywuzzy` dependency,
whose code is not part of this repository; the definitions below follow the
spec's descriptions of the six methods.  Each scorer returns a rational in
`[0, 100]`; `compare_strings` divides by 100. -/

/-- Kernel-computable maximum on the rationals (the lattice `max` on `ℚ`
does not reduce in the kernel; `qmax` is definitionally the same function). -/
def qmax (a b : ℚ) : ℚ := if a ≤ b then b else a

theorem qmax_eq_max : qmax = (max : ℚ → ℚ → ℚ) := by
  funext a b
  simp [qmax, max_def]

/-- Modelled from the spec: "normalized edit-distance-based similarity over the
full strings".  Two empty strings are identical, hence score 100. -/
def simFull (a b : List Char) : ℚ :=
  if a.length = 0 ∧ b.length = 0 then 100
  else 100 * (1 - (lev a b : ℚ) / (max a.length b.length : ℚ))

/-- Contiguous alignments of length `k` inside `l` (the candidate substrings a
shorter string is compared against). -/
def windows (l : List Char) (k : Nat) : List (List Char) :=
  (List.range (l.length - k + 1)).map (fun i => (l.drop i).take k)

/-- Modelled from the spec: "best-aligning-substring similarity — finds the
alignment of the shorter string inside the longer one that maximizes `ratio`".
-/
def simWindow (a b : List Char) : ℚ :=
  let p := if a.length ≤ b.length then (a, b) else (b, a)
  ((windows p.2 p.1.length).map (fun w => simFull p.1 w)).foldr qmax 0

/-- Whitespace tokenizer (drops empty tokens, like Python `str.split()`). -/
def wsTokensAux : List Char → List Char → List (List Char)
  | [], acc => if acc.isEmpty then [] else [acc.reverse]
  | c :: rest, acc =>
    if c.isWhitespace then
      if acc.isEmpty then wsTokensAux rest [] else acc.reverse :: wsTokensAux rest []
    else wsTokensAux rest (c :: acc)

/-- Tokenize a character list on whitespace. -/
def wsTokens (l : List Char) : List (List Char) := wsTokensAux l []

/-- Join tokens with a single space. -/
def joinSpaces : List (List Char) → List Char
  | [] => []
  | [t] => t
  | t :: rest => t ++ ' ' :: joinSpaces rest

/-- Lexicographic comparison of character lists (alphabetical token order). -/
def lexLe : List Char → List Char → Bool
  | [], _ => true
  | _ :: _, [] => false
  | x :: xs, y :: ys => if x = y then lexLe xs ys else decide (x < y)

/-- Insert a token into a lexicographically sorted token list. -/
def insertSorted (t : List Char) : List (List Char) → List (List Char)
  | [] => [t]
  | u :: us => if lexLe t u then t :: u :: us else u :: insertSorted t us

/-- Sort tokens alphabetically (insertion sort). -/
def sortToks : List (List Char) → List (List Char)
  | [] => []
  | t :: ts => insertSorted t (sortToks ts)

/-- Tokenize on whitespace, sort the tokens alphabetically, rejoin. -/
def processAndSort (s : List Char) : List Char := joinSpaces (sortToks (wsTokens s))

/-- Modelled from the spec: "tokenizes both strings on whitespace, sorts tokens
alphabetically, rejoins, then applies `ratio`". -/
def simTokSort (a b : List Char) : ℚ := simFull (processAndSort a) (processAndSort b)

/-- Modelled from the spec: the `partial_token_sort` variant uses the
best-aligning-substring comparison on the sorted-token strings. -/
def simWinTokSort (a b : List Char) : ℚ := simWindow (processAndSort a) (processAndSort b)

/-- Deduplicate tokens keeping first occurrences (token *set*). -/
def dedupToks (l : List (List Char)) : List (List Char) :=
  l.foldl (fun acc t => if acc.contains t then acc else acc ++ [t]) []

/-- Modelled from the spec: "computes set intersection/difference of tokens,
compares the sorted-intersection-plus-each-side's-sorted-difference strings
pairwise via `ratio`, returns the maximum" — parameterized by the base
comparison so it also yields the `partial_token_set` variant. -/
def simTokSetWith (base : List Char → List Char → ℚ) (a b : List Char) : ℚ :=
  let t1 := dedupToks (wsTokens a)
  let t2 := dedupToks (wsTokens b)
  let inter := sortToks (t1.filter (fun t => t2.contains t))
  let d12 := sortToks (t1.filter (fun t => !(t2.contains t)))
  let d21 := sortToks (t2.filter (fun t => !(t1.contains t)))
  let sect := joinSpaces inter
  let c1 := joinSpaces (inter ++ d12)
  let c2 := joinSpaces (inter ++ d21)
  qmax (base sect c1) (qmax (base sect c2) (base c1 c2))

/-- Modelled from the spec: the token-set comparison with full-string base. -/
def simTokSet (a b : List Char) : ℚ := simTokSetWith simFull a b

/-- Modelled from the spec: the token-set comparison with best-aligning-substring
base. -/
def simWinTokSet (a b : List Char) : ℚ := simTokSetWith simWindow a b

/-! Reflexivity and range lemmas for the scorers. -/

theorem simFull_self (a : List Char) : simFull a a = 100 := by
  by_cases h : a.length = 0 ∧ a.length = 0
  · simp [simFull, h]
  · have hlen : (0 : ℚ) < (max a.length a.length : ℚ) := by
      have : a.length ≠ 0 := fun hc => h ⟨hc, hc⟩
      have h0 : 0 < a.length := Nat.pos_of_ne_zero this
      have : (0 : ℚ) < (a.length : ℚ) := by exact_mod_cast h0
      simp [this]
    simp only [simFull, if_neg h, lev_self a]
    push_cast
    field_simp

theorem simFull_nonneg (a b : List Char) : 0 ≤ simFull a b := by
  by_cases h : a.length = 0 ∧ b.length = 0
  · simp [simFull, h]
  · have hmax : 0 < max a.length b.length := by
      rcases Nat.eq_zero_or_pos a.length with ha | ha
      · rcases Nat.eq_zero_or_pos b.length with hb | hb
        · exact absurd ⟨ha, hb⟩ h
        · exact lt_of_lt_of_le hb (Nat.le_max_right _ _)
      · exact lt_of_lt_of_le ha (Nat.le_max_left _ _)
    have hmaxQ : (0 : ℚ) < (max a.length b.length : ℚ) := by exact_mod_cast hmax
    have hle : (lev a b : ℚ) ≤ (max a.length b.length : ℚ) := by
      exact_mod_cast lev_le_max a b
    have hdiv : (lev a b : ℚ) / (max a.length b.length : ℚ) ≤ 1 :=
      (div_le_one hmaxQ).mpr hle
    simp only [simFull, if_neg h]
    nlinarith

theorem simFull_le (a b : List Char) : simFull a b ≤ 100 := by
  by_cases h : a.length = 0 ∧ b.length = 0
  · simp [simFull, h]
  · have hmax : 0 < max a.length b.length := by
      rcases Nat.eq_zero_or_pos a.length with ha | ha
      · rcases Nat.eq_zero_or_pos b.length with hb | hb
        · exact absurd ⟨ha, hb⟩ h
        · exact lt_of_lt_of_le hb (Nat.le_max_right _ _)
      · exact lt_of_lt_of_le ha (Nat.le_max_left _ _)
    have hmaxQ : (0 : ℚ) < (max a.length b.length : ℚ) := by exact_mod_cast hmax
    have hdiv : (0 : ℚ) ≤ (lev a b : ℚ) / (max a.length b.length : ℚ) :=
      div_nonneg (by positivity) (le_of_lt hmaxQ)
    simp only [simFull, if_neg h]
    nlinarith

theorem foldr_max_nonneg (l : List ℚ) : 0 ≤ l.foldr max 0 := by
  induction l with
  | nil => simp
  | cons x xs ih => simp only [List.foldr]; exact le_trans ih (le_max_right _ _)

theorem foldr_max_le (l : List ℚ) (c : ℚ) (hc : 0 ≤ c) (h : ∀ x ∈ l, x ≤ c) :
    l.foldr max 0 ≤ c := by
  induction l with
  | nil => simpa using hc
  | cons x xs ih =>
    simp only [List.foldr]
    exact max_le (h x (List.mem_cons_self _ _)) (ih fun y hy => h y (List.mem_cons_of_mem _ hy))

theorem simWindow_self (a : List Char) : simWindow a a = 100 := by
  have hwin : windows a a.length = [a] := by
    simp [windows, List.range_succ]
  norm_num [simWindow, hwin, simFull_self, qmax_eq_max]

theorem simWindow_nonneg (a b : List Char) : 0 ≤ simWindow a b := by
  unfold simWindow
  rw [qmax_eq_max]
  exact foldr_max_nonneg _

theorem simWindow_le (a b : List Char) : simWindow a b ≤ 100 := by
  unfold simWindow
  rw [qmax_eq_max]
  apply foldr_max_le _ _ (by norm_num)
  intro x hx
  rcases List.mem_map.mp hx with ⟨w, _, rfl⟩
  exact simFull_le _ _

theorem simTokSort_self (a : List Char) : simTokSort a a = 100 := simFull_self _

theorem simWinTokSort_self (a : List Char) : simWinTokSort a a = 100 := simWindow_self _

theorem simTokSetWith_self (base : List Char → List Char → ℚ)
    (hbase : ∀ x, base x x = 100) (a : List Char) :
    simTokSetWith base a a = 100 := by
  unfold simTokSetWith
  have hfilter : (dedupToks (wsTokens a)).filter
      (fun t => !((dedupToks (wsTokens a)).contains t)) = [] := by
    apply List.filter_eq_nil_iff.mpr
    intro t ht
    simpa using ht
  simp only [hfilter, sortToks, List.append_nil, hbase]
  simp [qmax_eq_max]

theorem simTokSet_self (a : List Char) : simTokSet a a = 100 :=
  simTokSetWith_self simFull simFull_self a

theorem simWinTokSet_self (a : List Char) : simWinTokSet a a = 100 :=
  simTokSetWith_self simWindow simWindow_self a

theorem simTokSetWith_nonneg (base : List Char → List Char → ℚ)
    (hb : ∀ x y, 0 ≤ base x y) (a b : List Char) : 0 ≤ simTokSetWith base a b := by
  unfold simTokSetWith
  rw [qmax_eq_max]
  exact le_trans (hb _ _) (le_max_left _ _)

theorem simTokSetWith_le (base : List Char → List Char → ℚ)
    (hb : ∀ x y, base x y ≤ 100) (a b : List Char) : simTokSetWith base a b ≤ 100 := by
  unfold simTokSetWith
  rw [qmax_eq_max]
  exact max_le (hb _ _) (max_le (hb _ _) (hb _ _))

/-! ### `compare_strings` (from `src/genai_chat/utils.py`)

`compare_strings(s1, s2, fuzzy_method="ratio", case_sensitive=True)` asserts
that the method name is supported, dispatches to the matching scorer (with
`ratio` as the default branch), lower-cases both inputs when not case
sensitive, and returns the score divided by 100.  The failing `assert` is
modelled as `Except.error`; Python `str.lower` is modelled by mapping
`Char.toLower` (the inputs of interest are ASCII). -/

/-- Lower-case a character list (models Python `str.lower`). -/
def toLowerL (l : List Char) : List Char := l.map Char.toLower

/-- Supported fuzzy method names, from `utils.py`. -/
def supported_fuzzy_methods : List String :=
  ["ratio", "partial_ratio", "token_sort_ratio", "token_set_ratio",
   "partial_token_sort_ratio", "partial_token_set_ratio"]

/-- Dispatch and scoring part of `compare_strings` (the part after the
`assert`): the `if/elif` chain defaulting to the full-string scorer, the
case-sensitivity lower-casing, and the division by 100. -/
def compare_strings_val (s1 s2 : String) (fuzzy_method : String) (case_sensitive : Bool) : ℚ :=
  let strings_similarity :=
    if fuzzy_method = "partial_ratio" then simWindow
    else if fuzzy_method = "token_sort_ratio" then simTokSort
    else if fuzzy_method = "token_set_ratio" then simTokSet
    else if fuzzy_method = "partial_token_sort_ratio" then simWinTokSort
    else if fuzzy_method = "partial_token_set_ratio" then simWinTokSet
    else simFull
  if case_sensitive then strings_similarity s1.data s2.data / 100
  else strings_similarity (toLowerL s1.data) (toLowerL s2.data) / 100

/-- `compare_strings` from `utils.py`: the `assert fuzzy_method in
supported_fuzzy_methods` is modelled as an `Except.error` result. -/
def compare_strings (s1 s2 : String) (fuzzy_method : String) (case_sensitive : Bool) :
    Except String ℚ :=
  if supported_fuzzy_methods.contains fuzzy_method then
    Except.ok (compare_strings_val s1 s2 fuzzy_method case_sensitive)
  else Except.error "fuzzy method not supported"

theorem compare_strings_val_nonneg (s1 s2 m : String) (c : Bool) :
    0 ≤ compare_strings_val s1 s2 m c := by
  unfold compare_strings_val
  have h : ∀ f : List Char → List Char → ℚ, (∀ x y, 0 ≤ f x y) →
      0 ≤ (if c then f s1.data s2.data / 100
           else f (toLowerL s1.data) (toLowerL s2.data) / 100) := by
    intro f hf
    split <;> exact div_nonneg (hf _ _) (by norm_num)
  split
  · exact h _ simWindow_nonneg
  split
  · exact h _ (fun x y => by
      have := simFull_nonneg (processAndSort x) (processAndSort y)
      exact this)
  split
  · exact h _ (simTokSetWith_nonneg simFull simFull_nonneg)
  split
  · exact h _ (fun x y => simWindow_nonneg (processAndSort x) (processAndSort y))
  split
  · exact h _ (simTokSetWith_nonneg simWindow simWindow_nonneg)
  · exact h _ simFull_nonneg

theorem compare_strings_val_le_one (s1 s2 m : String) (c : Bool) :
    compare_strings_val s1 s2 m c ≤ 1 := by
  unfold compare_strings_val
  have h : ∀ f : List Char → List Char → ℚ, (∀ x y, f x y ≤ 100) →
      (if c then f s1.data s2.data / 100
       else f (toLowerL s1.data) (toLowerL s2.data) / 100) ≤ 1 := by
    intro f hf
    split
    · rw [div_le_one (by norm_num)]; exact hf _ _
    · rw [div_le_one (by norm_num)]; exact hf _ _
  split
  · exact h _ simWindow_le
  split
  · exact h _ (fun x y => simFull_le (processAndSort x) (processAndSort y))
  split
  · exact h _ (simTokSetWith_le simFull simFull_le)
  split
  · exact h _ (fun x y => simWindow_le (processAndSort x) (processAndSort y))
  split
  · exact h _ (simTokSetWith_le simWindow simWindow_le)
  · exact h _ simFull_le

/-! ### Reference extraction (`re.findall` with the default citation regex)

`Bot._extract_citations` runs `re.findall(pattern=self._citation_regex,
string=bot_message)`; the default pattern from `core.py` is a double-quoted
capture: the content between each pair of double quotes, left to right,
duplicates included, unterminated opening quotes yielding nothing. -/

/-- State machine for the default pattern: `none` means outside quotes,
`some acc` means inside quotes with `acc` the (reversed) captured content. -/
def refsAux : List Char → Option (List Char) → List (List Char)
  | [], _ => []
  | c :: rest, none =>
    if c = '"' then refsAux rest (some []) else refsAux rest none
  | c :: rest, some acc =>
    if c = '"' then acc.reverse :: refsAux rest none else refsAux rest (some (c :: acc))

/-- References extracted from a message by the default citation regex. -/
def extract_refs (bot_message : String) : List String :=
  (refsAux bot_message.data none).map (fun l => String.mk l)

/-! ### The two-phase citation resolver (`Bot._extract_citations`, `core.py`)

The Python `selected_citations` dict (insertion-ordered; keys are the corpus
indices, which can be `None` when the inner scan never improved on the initial
`ref_index = None`) is modelled as an association list over `Option Nat` keys
and `Option α` values, with Python assignment semantics (`dictInsert`).

The resolver is generic in the record type `α` and the citation-field
projection `fld` (Python `data[self._citation_field]`), and in the threshold
`θ` (Python `self._citation_threshold`). -/

/-- Python `d[k] = v` on an insertion-ordered dict: replace the value at an
existing key in place, else append the new binding. -/
def dictInsert {α : Type} (k : Option Nat) (v : Option α) :
    List (Option Nat × Option α) → List (Option Nat × Option α)
  | [] => [(k, v)]
  | kv :: rest => if kv.1 == k then (k, v) :: rest else kv :: dictInsert k v rest

/-- Python `k in d`. -/
def hasKey {α : Type} (d : List (Option Nat × Option α)) (k : Option Nat) : Bool :=
  d.any (fun kv => kv.1 == k)

/-- Case-insensitive default-method similarity used by phase 1:
`compare_strings(name, data[field], case_sensitive=False)`. -/
def simRefCI {α : Type} (fld : α → String) (name : String) (r : α) : ℚ :=
  compare_strings_val name (fld r) "ratio" false

/-- Case-insensitive best-aligning-substring similarity used by phase 2:
`compare_strings(data[field], bot_message, fuzzy_method="partial_ratio",
case_sensitive=False)`. -/
def simMsgCI {α : Type} (fld : α → String) (r : α) (bot_message : String) : ℚ :=
  compare_strings_val (fld r) bot_message "partial_ratio" false

/-- Inner scan of phase 1: starting from `max_similarity = 0.0` and
`ref, ref_index = None, None`, keep the first strict improvement. -/
def bestMatch {α : Type} (fld : α → String) (name : String) (citations : List α) :
    ℚ × Option α × Option Nat :=
  citations.enum.foldl
    (fun acc p =>
      if acc.1 < simRefCI fld name p.2 then (simRefCI fld name p.2, some p.2, some p.1)
      else acc)
    (0, none, none)

/-- Phase 1 of `_extract_citations`: for each extracted reference, scan the
corpus and accept the best match when `max_similarity >= threshold`. -/
def phase1 {α : Type} (fld : α → String) (θ : ℚ) (citations : List α)
    (names_list : List String) : List (Option Nat × Option α) :=
  names_list.foldl
    (fun selected name =>
      let best := bestMatch fld name citations
      if θ ≤ best.1 then dictInsert best.2.2 best.2.1 selected else selected)
    []

/-- Phase 2 of `_extract_citations`: for every corpus index not already
selected, accept when the whole-message similarity is above threshold. -/
def phase2 {α : Type} (fld : α → String) (θ : ℚ) (citations : List α)
    (bot_message : String) (selected : List (Option Nat × Option α)) :
    List (Option Nat × Option α) :=
  citations.enum.foldl
    (fun sel p =>
      if hasKey sel (some p.1) then sel
      else if θ ≤ simMsgCI fld p.2 bot_message then dictInsert (some p.1) (some p.2) sel
      else sel)
    selected

/-- `Bot._extract_citations`: both phases run only when the staged corpus is
nonempty; the returned list is the dict's values in insertion order. -/
def extract_citations {α : Type} (fld : α → String) (θ : ℚ)
    (citations_available : List α) (bot_message : String) : List (Option α) :=
  let citations := citations_available
  if citations.isEmpty then []
  else
    let names_list := extract_refs bot_message
    let selected := phase2 fld θ citations bot_message (phase1 fld θ citations names_list)
    selected.map (fun kv => kv.2)

theorem extract_refs_spec_example :
    extract_refs "He said \"Imagine\" and \"Let It Be\"" = ["Imagine", "Let It Be"] := by
  decide

set_option maxRecDepth 100000 in
theorem extract_citations_spec_example :
    extract_citations (fun r => r) (3/4) ["Imagine", "Let It Be"] "I recommend \"Imagine\"." =
      [some "Imagine"] := by
  with_unfolding_all decide

/-! ### Declarative characterization of the resolver

These definitions state, directly in the spec's vocabulary, what the two
phases accept; the claim theorems prove the imperative folds above equal to
them. -/

/-- Similarities of one reference against the staged corpus, in corpus order. -/
def refSims {α : Type} (fld : α → String) (name : String) (citations : List α) : List ℚ :=
  citations.map (fun r => simRefCI fld name r)

/-- Highest phase-1 similarity of a reference over the staged corpus (`0` for
an empty corpus; all scores are nonnegative). -/
def maxSim {α : Type} (fld : α → String) (name : String) (citations : List α) : ℚ :=
  (refSims fld name citations).foldr qmax 0

/-- First indexed record (lowest corpus index) whose similarity to the
reference equals `m`. -/
def firstAt {α : Type} (fld : α → String) (name : String) (m : ℚ) :
    List (Nat × α) → Option (Nat × α)
  | [] => none
  | p :: rest => if simRefCI fld name p.2 = m then some p else firstAt fld name m rest

/-- The indexed record phase 1 picks for a reference: the first record
attaining the maximum similarity (ties broken by corpus order). -/
def bestRef {α : Type} (fld : α → String) (name : String) (citations : List α) :
    Option (Nat × α) :=
  firstAt fld name (maxSim fld name citations) citations.enum

/-- Recursive description of the phase-1 inner scan: the first strictly
positive running maximum, earlier records winning ties. -/
def bestOf {α : Type} (fld : α → String) (name : String) :
    List (Nat × α) → ℚ × Option α × Option Nat
  | [] => (0, none, none)
  | p :: rest =>
    let b := bestOf fld name rest
    if b.1 ≤ simRefCI fld name p.2 ∧ 0 < simRefCI fld name p.2 then
      (simRefCI fld name p.2, some p.2, some p.1)
    else b

theorem bestOf_fst {α : Type} (fld : α → String) (name : String) :
    ∀ l : List (Nat × α),
      (bestOf fld name l).1 = (l.map (fun p => simRefCI fld name p.2)).foldr max 0 := by
  intro l
  induction l with
  | nil => simp [bestOf]
  | cons p rest ih =>
    simp only [bestOf, List.map_cons, List.foldr]
    by_cases h : (bestOf fld name rest).1 ≤ simRefCI fld name p.2 ∧
        0 < simRefCI fld name p.2
    · rw [if_pos h]
      have := ih
      rw [this] at h
      exact (max_eq_left h.1).symm
    · rw [if_neg h, ih]
      rcases not_and_or.mp h with h1 | h1
      · push_neg at h1
        rw [ih] at h1
        exact (max_eq_right (le_of_lt h1)).symm
      · push_neg at h1
        have h0 : 0 ≤ (rest.map (fun p => simRefCI fld name p.2)).foldr max 0 :=
          foldr_max_nonneg _
        exact (max_eq_right (le_trans h1 h0)).symm

theorem bestOf_fst_nonneg {α : Type} (fld : α → String) (name : String)
    (l : List (Nat × α)) : 0 ≤ (bestOf fld name l).1 := by
  rw [bestOf_fst]
  exact foldr_max_nonneg _

theorem bestOf_pos {α : Type} (fld : α → String) (name : String) :
    ∀ l : List (Nat × α), 0 < (bestOf fld name l).1 →
      ∃ p, firstAt fld name ((bestOf fld name l).1) l = some p ∧
        bestOf fld name l = (simRefCI fld name p.2, some p.2, some p.1) := by
  intro l
  induction l with
  | nil => intro h; simp [bestOf] at h
  | cons p rest ih =>
    intro hpos
    by_cases h : (bestOf fld name rest).1 ≤ simRefCI fld name p.2 ∧
        0 < simRefCI fld name p.2
    · refine ⟨p, ?_, ?_⟩
      · simp [bestOf, if_pos h, firstAt]
      · simp only [bestOf, if_pos h]
    · have hb : bestOf fld name (p :: rest) = bestOf fld name rest := by
        simp only [bestOf, if_neg h]
      rw [hb] at hpos ⊢
      obtain ⟨q, hq1, hq2⟩ := ih hpos
      refine ⟨q, ?_, hq2⟩
      have hne : simRefCI fld name p.2 ≠ (bestOf fld name rest).1 := by
        rcases not_and_or.mp h with h1 | h1
        · push_neg at h1
          exact ne_of_lt h1
        · push_neg at h1
          exact ne_of_lt (lt_of_le_of_lt h1 hpos)
      simp only [firstAt, if_neg hne]
      exact hq1

theorem scan_eq {α : Type} (fld : α → String) (name : String) :
    ∀ (l : List (Nat × α)) (acc : ℚ × Option α × Option Nat), 0 ≤ acc.1 →
      l.foldl
        (fun acc p =>
          if acc.1 < simRefCI fld name p.2 then (simRefCI fld name p.2, some p.2, some p.1)
          else acc) acc
      = if acc.1 < (bestOf fld name l).1 then bestOf fld name l else acc := by
  intro l
  induction l with
  | nil =>
    intro acc hacc
    simp only [List.foldl, bestOf]
    rw [if_neg (not_lt.mpr hacc)]
  | cons p rest ih =>
    intro acc hacc
    simp only [List.foldl]
    by_cases hs : acc.1 < simRefCI fld name p.2
    · rw [if_pos hs]
      have hs0 : (0 : ℚ) < simRefCI fld name p.2 := lt_of_le_of_lt hacc hs
      rw [ih (simRefCI fld name p.2, some p.2, some p.1) (le_of_lt hs0)]
      by_cases hb : (bestOf fld name rest).1 ≤ simRefCI fld name p.2
      · have hcons : bestOf fld name (p :: rest) =
            (simRefCI fld name p.2, some p.2, some p.1) := by
          simp only [bestOf, if_pos (And.intro hb hs0)]
        rw [if_neg (not_lt.mpr hb), hcons, if_pos hs]
      · push_neg at hb
        have hcons : bestOf fld name (p :: rest) = bestOf fld name rest := by
          have : ¬((bestOf fld name rest).1 ≤ simRefCI fld name p.2 ∧
              0 < simRefCI fld name p.2) := fun hc => absurd hc.1 (not_le.mpr hb)
          simp only [bestOf, if_neg this]
        rw [if_pos hb, hcons, if_pos (lt_trans hs hb)]
    · rw [if_neg hs]
      rw [ih acc hacc]
      push_neg at hs
      by_cases hc : (bestOf fld name rest).1 ≤ simRefCI fld name p.2 ∧
          0 < simRefCI fld name p.2
      · have hcons : bestOf fld name (p :: rest) =
            (simRefCI fld name p.2, some p.2, some p.1) := by
          simp only [bestOf, if_pos hc]
        rw [hcons]
        have h1 : ¬acc.1 < (bestOf fld name rest).1 :=
          not_lt.mpr (le_trans hc.1 hs)
        have h2 : ¬acc.1 < simRefCI fld name p.2 := not_lt.mpr hs
        rw [if_neg h1, if_neg h2]
      · have hcons : bestOf fld name (p :: rest) = bestOf fld name rest := by
          simp only [bestOf, if_neg hc]
        rw [hcons]

theorem bestMatch_eq {α : Type} (fld : α → String) (name : String) (citations : List α) :
    bestMatch fld name citations =
      if 0 < (bestOf fld name citations.enum).1 then bestOf fld name citations.enum
      else (0, none, none) := by
  unfold bestMatch
  rw [scan_eq fld name citations.enum (0, none, none) (le_refl 0)]

theorem maxSim_eq_bestOf_fst {α : Type} (fld : α → String) (name : String)
    (citations : List α) :
    (bestOf fld name citations.enum).1 = maxSim fld name citations := by
  rw [bestOf_fst]
  unfold maxSim refSims
  rw [qmax_eq_max]
  congr 1
  have h1 : citations.enum.map (fun p => simRefCI fld name p.2) =
      (citations.enum.map Prod.snd).map (fun r => simRefCI fld name r) := by
    rw [List.map_map]
    rfl
  rw [h1, List.enum_map_snd]

theorem bestMatch_fst {α : Type} (fld : α → String) (name : String) (citations : List α) :
    (bestMatch fld name citations).1 = maxSim fld name citations := by
  rw [bestMatch_eq]
  by_cases h : 0 < (bestOf fld name citations.enum).1
  · rw [if_pos h, maxSim_eq_bestOf_fst]
  · rw [if_neg h]
    push_neg at h
    have h0 := bestOf_fst_nonneg fld name citations.enum
    have : (bestOf fld name citations.enum).1 = 0 := le_antisymm h h0
    rw [← maxSim_eq_bestOf_fst fld name citations, this]

/-- Declarative phase 1: for each reference in text order, when the maximum
similarity over the corpus reaches the threshold, accept the first record
attaining it, keyed by its corpus index. -/
def phase1Spec {α : Type} (fld : α → String) (θ : ℚ) (citations : List α)
    (names_list : List String) : List (Option Nat × Option α) :=
  names_list.foldl
    (fun d name =>
      if θ ≤ maxSim fld name citations then
        match bestRef fld name citations with
        | some p => dictInsert (some p.1) (some p.2) d
        | none => d
      else d)
    []

/-- Declarative phase 2: append, in corpus order, every index not already
selected whose whole-message similarity reaches the threshold. -/
def phase2Spec {α : Type} (fld : α → String) (θ : ℚ) (citations : List α)
    (bot_message : String) (d : List (Option Nat × Option α)) :
    List (Option Nat × Option α) :=
  d ++ (citations.enum.filter
      (fun p => !(hasKey d (some p.1)) && decide (θ ≤ simMsgCI fld p.2 bot_message))).map
    (fun p => (some p.1, some p.2))

theorem bestMatch_step_eq {α : Type} (fld : α → String) (θ : ℚ) (hθ : 0 < θ)
    (citations : List α) (name : String) (d : List (Option Nat × Option α)) :
    (if θ ≤ (bestMatch fld name citations).1 then
       dictInsert (bestMatch fld name citations).2.2 (bestMatch fld name citations).2.1 d
     else d)
    = (if θ ≤ maxSim fld name citations then
         match bestRef fld name citations with
         | some p => dictInsert (some p.1) (some p.2) d
         | none => d
       else d) := by
  by_cases hm : θ ≤ maxSim fld name citations
  · have hpos : 0 < maxSim fld name citations := lt_of_lt_of_le hθ hm
    have h1 := maxSim_eq_bestOf_fst fld name citations
    have hposE : 0 < (bestOf fld name citations.enum).1 := by rw [h1]; exact hpos
    have hbm : bestMatch fld name citations = bestOf fld name citations.enum := by
      rw [bestMatch_eq, if_pos hposE]
    obtain ⟨p, hfa, heq⟩ := bestOf_pos fld name citations.enum hposE
    have hbr : bestRef fld name citations = some p := by
      unfold bestRef
      rw [← h1]
      exact hfa
    rw [if_pos hm, hbr, if_pos (by rw [bestMatch_fst]; exact hm), hbm, heq]
  · rw [if_neg hm, if_neg (by rw [bestMatch_fst]; exact hm)]

theorem phase1_eq_spec {α : Type} (fld : α → String) (θ : ℚ) (hθ : 0 < θ)
    (citations : List α) (names_list : List String) :
    phase1 fld θ citations names_list = phase1Spec fld θ citations names_list := by
  unfold phase1 phase1Spec
  have hstep : (fun (selected : List (Option Nat × Option α)) (name : String) =>
      let best := bestMatch fld name citations
      if θ ≤ best.1 then dictInsert best.2.2 best.2.1 selected else selected) =
      (fun (d : List (Option Nat × Option α)) (name : String) =>
        if θ ≤ maxSim fld name citations then
          match bestRef fld name citations with
          | some p => dictInsert (some p.1) (some p.2) d
          | none => d
        else d) := by
    funext d name
    exact bestMatch_step_eq fld θ hθ citations name d
  rw [hstep]

theorem hasKey_append {α : Type} (d e : List (Option Nat × Option α)) (k : Option Nat) :
    hasKey (d ++ e) k = (hasKey d k || hasKey e k) := by
  unfold hasKey
  exact List.any_append

theorem dictInsert_fresh {α : Type} (k : Option Nat) (v : Option α) :
    ∀ d : List (Option Nat × Option α), hasKey d k = false →
      dictInsert k v d = d ++ [(k, v)] := by
  intro d
  induction d with
  | nil => intro _; rfl
  | cons kv rest ih =>
    intro h
    have h' : ((kv.1 == k) || rest.any (fun kv => kv.1 == k)) = false := by
      simpa [hasKey] using h
    rcases Bool.or_eq_false_iff.mp h' with ⟨h1, h2⟩
    have h2' : hasKey rest k = false := h2
    simp only [dictInsert, h1, Bool.false_eq_true, if_false, ih h2', List.cons_append]

theorem enumFrom_le_fst {α : Type} :
    ∀ (l : List α) (n : Nat) (p : Nat × α), p ∈ List.enumFrom n l → n ≤ p.1 := by
  intro l
  induction l with
  | nil => intro n p h; simp [List.enumFrom] at h
  | cons x xs ih =>
    intro n p h
    rcases List.mem_cons.mp h with h1 | h1
    · subst h1; exact le_refl n
    · exact le_trans (Nat.le_succ n) (ih (n + 1) p h1)

theorem phase2_from {α : Type} (fld : α → String) (θ : ℚ) (bot_message : String) :
    ∀ (cs : List α) (n : Nat) (d : List (Option Nat × Option α)),
      (List.enumFrom n cs).foldl
        (fun sel p =>
          if hasKey sel (some p.1) then sel
          else if θ ≤ simMsgCI fld p.2 bot_message then dictInsert (some p.1) (some p.2) sel
          else sel) d
      = d ++ ((List.enumFrom n cs).filter
            (fun p => !(hasKey d (some p.1)) && decide (θ ≤ simMsgCI fld p.2 bot_message))).map
          (fun p => (some p.1, some p.2)) := by
  intro cs
  induction cs with
  | nil => intro n d; simp [List.enumFrom]
  | cons c rest ih =>
    intro n d
    show List.foldl _ d ((n, c) :: List.enumFrom (n + 1) rest) =
      d ++ (((n, c) :: List.enumFrom (n + 1) rest).filter _).map _
    rw [List.foldl_cons, List.filter_cons]
    by_cases h1 : hasKey d (some n) = true
    · rw [if_pos h1]
      have hpred : (!(hasKey d (some (n, c).1)) &&
          decide (θ ≤ simMsgCI fld (n, c).2 bot_message)) = false := by
        simp [h1]
      rw [hpred]
      simp only [Bool.false_eq_true, if_false]
      exact ih (n + 1) d
    · have h1' : hasKey d (some n) = false := by
        revert h1; cases hasKey d (some n) <;> simp
      by_cases h2 : θ ≤ simMsgCI fld c bot_message
      · rw [if_neg h1, if_pos h2, dictInsert_fresh (some n) (some c) d h1']
        rw [ih (n + 1) (d ++ [(some n, some c)])]
        have hfc : (List.enumFrom (n + 1) rest).filter
            (fun p => !(hasKey (d ++ [(some n, some c)]) (some p.1)) &&
              decide (θ ≤ simMsgCI fld p.2 bot_message))
            = (List.enumFrom (n + 1) rest).filter
            (fun p => !(hasKey d (some p.1)) &&
              decide (θ ≤ simMsgCI fld p.2 bot_message)) := by
          apply List.filter_congr
          intro p hp
          have hle : n + 1 ≤ p.1 := enumFrom_le_fst rest (n + 1) p hp
          have hne : ¬(some n == some p.1) = true := by
            simp only [beq_iff_eq, Option.some.injEq]
            omega
          have hkey : hasKey (d ++ [(some n, some c)]) (some p.1) = hasKey d (some p.1) := by
            rw [hasKey_append]
            have : hasKey [(some n, some c)] (some p.1) = false := by
              simp [hasKey, hne]
            rw [this, Bool.or_false]
          rw [hkey]
        rw [hfc]
        have hpred : (!(hasKey d (some (n, c).1)) &&
            decide (θ ≤ simMsgCI fld (n, c).2 bot_message)) = true := by
          simp [h1', h2]
        rw [hpred]
        simp only [if_true, List.map_cons, List.append_assoc, List.singleton_append]
      · rw [if_neg h1, if_neg h2]
        have hpred : (!(hasKey d (some (n, c).1)) &&
            decide (θ ≤ simMsgCI fld (n, c).2 bot_message)) = false := by
          simp [h2]
        rw [hpred]
        simp only [Bool.false_eq_true, if_false]
        exact ih (n + 1) d

theorem phase2_eq_spec {α : Type} (fld : α → String) (θ : ℚ) (citations : List α)
    (bot_message : String) (d : List (Option Nat × Option α)) :
    phase2 fld θ citations bot_message d = phase2Spec fld θ citations bot_message d := by
  unfold phase2 phase2Spec
  exact phase2_from fld θ bot_message citations 0 d

/-- **C1.** Citation resolution is a two-phase acceptance: phase 1 processes
each reference string extracted from the generated text, scans the whole
staged corpus, picks the record whose citation field has the highest
(case-insensitive, full-string default method) similarity to the reference —
first record on ties — and accepts it, keyed by its corpus index, exactly when
that maximum reaches the threshold (`phase1Spec`); phase 2 accepts every
corpus index not already selected exactly when the case-insensitive
best-aligning-substring similarity of its field value against the whole
generated text reaches the threshold, in corpus order (`phase2Spec`).  Stated
for a positive threshold; the degenerate nonpositive-threshold corner is
settled separately. -/
theorem c1_two_phase_acceptance {α : Type} (fld : α → String) (θ : ℚ)
    (citations : List α) (bot_message : String) (hθ : 0 < θ) :
    phase1 fld θ citations (extract_refs bot_message) =
        phase1Spec fld θ citations (extract_refs bot_message)
    ∧ ∀ d, phase2 fld θ citations bot_message d =
        phase2Spec fld θ citations bot_message d :=
  ⟨phase1_eq_spec fld θ hθ citations (extract_refs bot_message),
   fun d => phase2_eq_spec fld θ citations bot_message d⟩

/-- Witness for C1 at a concrete corpus, message and threshold. -/
theorem c1_two_phase_acceptance_witness :
    0 < (3/4 : ℚ)
    ∧ (phase1 (fun r => r) (3/4) ["Imagine", "Let It Be"]
          (extract_refs "I recommend \"Imagine\".") =
        phase1Spec (fun r => r) (3/4) ["Imagine", "Let It Be"]
          (extract_refs "I recommend \"Imagine\".")
      ∧ ∀ d, phase2 (fun r => r) (3/4) ["Imagine", "Let It Be"] "I recommend \"Imagine\"." d =
          phase2Spec (fun r => r) (3/4) ["Imagine", "Let It Be"] "I recommend \"Imagine\"." d) :=
  ⟨by norm_num,
   c1_two_phase_acceptance (fun r => r) (3/4) ["Imagine", "Let It Be"]
     "I recommend \"Imagine\"." (by norm_num)⟩

/-! ### Order and deduplication of the resolved citation list -/

/-- Keep-first deduplication of an index list (the order in which distinct
indices were first confirmed). -/
def dedupFirst (l : List Nat) : List Nat :=
  l.foldl (fun acc i => if acc.contains i then acc else acc ++ [i]) []

/-- Corpus indices accepted by phase 1, one per above-threshold reference, in
the order the references appear in the generated text (with repetitions). -/
def acceptedIdx {α : Type} (fld : α → String) (θ : ℚ) (citations : List α)
    (names : List String) : List Nat :=
  names.filterMap (fun name =>
    if θ ≤ maxSim fld name citations then (bestRef fld name citations).map Prod.fst
    else none)

/-- Corpus indices accepted by phase 2 (corpus order), given the phase-1
index selection `L`. -/
def fallbackIdx {α : Type} (fld : α → String) (θ : ℚ) (citations : List α)
    (bot_message : String) (L : List Nat) : List Nat :=
  (citations.enum.filter
      (fun p => !(L.contains p.1) && decide (θ ≤ simMsgCI fld p.2 bot_message))).map
    Prod.fst

/-- The citation list described declaratively: phase-1 acceptances, one per
corpus index, in first-confirmation order, then phase-2 acceptances in corpus
order. -/
def specCitations {α : Type} (fld : α → String) (θ : ℚ) (citations : List α)
    (bot_message : String) : List (Option α) :=
  let L := dedupFirst (acceptedIdx fld θ citations (extract_refs bot_message))
  L.map (fun i => citations[i]?)
    ++ (fallbackIdx fld θ citations bot_message L).map (fun i => citations[i]?)

/-- The association list holding, for each index in `L`, the record at that
corpus index. -/
def entriesOf {α : Type} (citations : List α) (L : List Nat) :
    List (Option Nat × Option α) :=
  L.map (fun i => (some i, citations[i]?))

theorem hasKey_entriesOf {α : Type} (citations : List α) (L : List Nat) (i : Nat) :
    hasKey (entriesOf citations L) (some i) = L.contains i := by
  induction L with
  | nil => rfl
  | cons j L' ih =>
    simp only [entriesOf, hasKey, List.map_cons, List.any_cons] at ih ⊢
    rw [ih]
    have h1 : ((some j : Option Nat) == some i) = (j == i) := by
      cases h : (j == i) <;> simp_all
    have h2 : (j :: L').contains i = ((i == j) || L'.contains i) := rfl
    have h3 : (j == i) = (i == j) := by
      cases h : (j == i) <;> cases h' : (i == j) <;> simp_all
    rw [h1, h2, h3]

theorem firstAt_mem {α : Type} (fld : α → String) (name : String) (m : ℚ) :
    ∀ (l : List (Nat × α)) (p : Nat × α), firstAt fld name m l = some p → p ∈ l := by
  intro l
  induction l with
  | nil => intro p h; simp [firstAt] at h
  | cons q rest ih =>
    intro p h
    by_cases hq : simRefCI fld name q.2 = m
    · simp only [firstAt, if_pos hq, Option.some.injEq] at h
      exact h ▸ List.mem_cons_self q rest
    · simp only [firstAt, if_neg hq] at h
      exact List.mem_cons_of_mem q (ih p h)

theorem mem_enum_getElem? {α : Type} (citations : List α) (p : Nat × α)
    (h : p ∈ citations.enum) : citations[p.1]? = some p.2 := by
  obtain ⟨i, x⟩ := p
  exact List.mk_mem_enum_iff_getElem?.mp h

theorem dictInsert_entriesOf_mem {α : Type} (citations : List α) (i : Nat) :
    ∀ L : List Nat, i ∈ L →
      dictInsert (some i) (citations[i]?) (entriesOf citations L) = entriesOf citations L := by
  intro L
  induction L with
  | nil => intro h; simp at h
  | cons j L' ih =>
    intro h
    by_cases hj : j = i
    · subst hj
      simp [entriesOf, dictInsert]
    · have h' : i ∈ L' := by
        rcases List.mem_cons.mp h with h1 | h1
        · exact absurd h1.symm hj
        · exact h1
      have hne : ((some j : Option Nat) == some i) = false := by
        simp [hj]
      simp only [entriesOf, List.map_cons, dictInsert, hne, Bool.false_eq_true, if_false]
      rw [show (List.map (fun i => (some i, citations[i]?)) L') = entriesOf citations L' from rfl,
        ih h']

theorem phase1Spec_entriesOf {α : Type} (fld : α → String) (θ : ℚ) (citations : List α) :
    ∀ (names : List String) (seen : List Nat),
      names.foldl
        (fun d name =>
          if θ ≤ maxSim fld name citations then
            match bestRef fld name citations with
            | some p => dictInsert (some p.1) (some p.2) d
            | none => d
          else d)
        (entriesOf citations seen)
      = entriesOf citations
          ((acceptedIdx fld θ citations names).foldl
            (fun acc i => if acc.contains i then acc else acc ++ [i]) seen) := by
  intro names
  induction names with
  | nil => intro seen; simp [acceptedIdx]
  | cons name names' ih =>
    intro seen
    simp only [List.foldl_cons]
    by_cases hm : θ ≤ maxSim fld name citations
    · rw [if_pos hm]
      cases hbr : bestRef fld name citations with
      | none =>
        have hacc : acceptedIdx fld θ citations (name :: names')
            = acceptedIdx fld θ citations names' := by
          simp [acceptedIdx, List.filterMap_cons, if_pos hm, hbr]
        rw [hacc]
        exact ih seen
      | some p =>
        have hval : citations[p.1]? = some p.2 :=
          mem_enum_getElem? citations p (firstAt_mem fld name _ citations.enum p hbr)
        have hacc : acceptedIdx fld θ citations (name :: names')
            = p.1 :: acceptedIdx fld θ citations names' := by
          simp [acceptedIdx, List.filterMap_cons, if_pos hm, hbr]
        rw [hacc]
        simp only [List.foldl_cons]
        by_cases hmem : seen.contains p.1 = true
        · rw [if_pos hmem]
          have hrw : dictInsert (some p.1) (some p.2) (entriesOf citations seen)
              = entriesOf citations seen := by
            rw [← hval]
            exact dictInsert_entriesOf_mem citations p.1 seen (by simpa using hmem)
          have h2 : List.foldl
              (fun d name =>
                if θ ≤ maxSim fld name citations then
                  match bestRef fld name citations with
                  | some p => dictInsert (some p.1) (some p.2) d
                  | none => d
                else d)
              (dictInsert (some p.1) (some p.2) (entriesOf citations seen)) names'
              = List.foldl
              (fun d name =>
                if θ ≤ maxSim fld name citations then
                  match bestRef fld name citations with
                  | some p => dictInsert (some p.1) (some p.2) d
                  | none => d
                else d)
              (entriesOf citations seen) names' := by
            rw [hrw]
          exact h2.trans (ih seen)
        · rw [if_neg hmem]
          have hfresh : hasKey (entriesOf citations seen) (some p.1) = false := by
            rw [hasKey_entriesOf]
            revert hmem; cases seen.contains p.1 <;> simp
          have hinit : dictInsert (some p.1) (some p.2) (entriesOf citations seen)
              = entriesOf citations (seen ++ [p.1]) := by
            rw [dictInsert_fresh (some p.1) (some p.2) (entriesOf citations seen) hfresh]
            simp [entriesOf, hval]
          have h2 : List.foldl
              (fun d name =>
                if θ ≤ maxSim fld name citations then
                  match bestRef fld name citations with
                  | some p => dictInsert (some p.1) (some p.2) d
                  | none => d
                else d)
              (dictInsert (some p.1) (some p.2) (entriesOf citations seen)) names'
              = List.foldl
              (fun d name =>
                if θ ≤ maxSim fld name citations then
                  match bestRef fld name citations with
                  | some p => dictInsert (some p.1) (some p.2) d
                  | none => d
                else d)
              (entriesOf citations (seen ++ [p.1])) names' := by
            rw [hinit]
          exact h2.trans (ih (seen ++ [p.1]))
    · rw [if_neg hm]
      have hacc : acceptedIdx fld θ citations (name :: names')
          = acceptedIdx fld θ citations names' := by
        simp [acceptedIdx, List.filterMap_cons, if_neg hm]
      rw [hacc]
      exact ih seen

theorem phase1Spec_eq_entries {α : Type} (fld : α → String) (θ : ℚ) (citations : List α)
    (names : List String) :
    phase1Spec fld θ citations names
      = entriesOf citations (dedupFirst (acceptedIdx fld θ citations names)) := by
  have h := phase1Spec_entriesOf fld θ citations names []
  simpa [phase1Spec, entriesOf, dedupFirst] using h


theorem extract_citations_eq_spec {α : Type} (fld : α → String) (θ : ℚ) (hθ : 0 < θ)
    (citations : List α) (bot_message : String) :
    extract_citations fld θ citations bot_message
      = specCitations fld θ citations bot_message := by
  by_cases hc : citations.isEmpty
  · have hnil : citations = [] := by
      cases citations
      · rfl
      · simp at hc
    subst hnil
    have hacc : acceptedIdx fld θ ([] : List α) (extract_refs bot_message) = [] := by
      apply List.filterMap_eq_nil_iff.mpr
      intro name _
      have : ¬θ ≤ maxSim fld name ([] : List α) := by
        simp [maxSim, refSims]
        exact hθ
      rw [if_neg this]
    simp [extract_citations, specCitations, hacc, dedupFirst, fallbackIdx]
  · simp only [extract_citations, specCitations]
    rw [if_neg hc]
    rw [phase1_eq_spec fld θ hθ, phase2_eq_spec, phase1Spec_eq_entries]
    unfold phase2Spec
    rw [List.map_append]
    congr 1
    · simp only [entriesOf, List.map_map]
      rfl
    · have hpred : (fun p : Nat × α =>
          !(hasKey (entriesOf citations
              (dedupFirst (acceptedIdx fld θ citations (extract_refs bot_message))))
            (some p.1)) && decide (θ ≤ simMsgCI fld p.2 bot_message))
          = (fun p : Nat × α =>
          !((dedupFirst (acceptedIdx fld θ citations (extract_refs bot_message))).contains
            p.1) && decide (θ ≤ simMsgCI fld p.2 bot_message)) := by
        funext p
        rw [hasKey_entriesOf]
      rw [hpred]
      unfold fallbackIdx
      rw [List.map_map, List.map_map]
      apply List.map_congr_left
      intro p hp
      have hp' : p ∈ citations.enum := List.mem_of_mem_filter hp
      have hval := mem_enum_getElem? citations p hp'
      simp [Function.comp, hval]

theorem foldl_dedup_nodup :
    ∀ (l : List Nat) (acc : List Nat), acc.Nodup →
      (l.foldl (fun acc i => if acc.contains i then acc else acc ++ [i]) acc).Nodup := by
  intro l
  induction l with
  | nil => intro acc h; exact h
  | cons j l' ih =>
    intro acc h
    rw [List.foldl_cons]
    by_cases hj : acc.contains j = true
    · rw [if_pos hj]
      exact ih acc h
    · rw [if_neg hj]
      apply ih
      have hnot : j ∉ acc := by
        intro hmem
        exact hj (List.elem_eq_true_of_mem hmem)
      simp [List.nodup_append, h, hnot]

theorem foldl_dedup_subset :
    ∀ (l : List Nat) (acc : List Nat) (i : Nat),
      i ∈ l.foldl (fun acc i => if acc.contains i then acc else acc ++ [i]) acc →
      i ∈ acc ∨ i ∈ l := by
  intro l
  induction l with
  | nil => intro acc i h; exact Or.inl h
  | cons j l' ih =>
    intro acc i h
    rw [List.foldl_cons] at h
    by_cases hj : acc.contains j = true
    · rw [if_pos hj] at h
      rcases ih acc i h with h1 | h1
      · exact Or.inl h1
      · exact Or.inr (List.mem_cons_of_mem j h1)
    · rw [if_neg hj] at h
      rcases ih (acc ++ [j]) i h with h1 | h1
      · rcases List.mem_append.mp h1 with h2 | h2
        · exact Or.inl h2
        · simp at h2
          exact Or.inr (h2 ▸ List.mem_cons_self j l')
      · exact Or.inr (List.mem_cons_of_mem j h1)

theorem dedupFirst_nodup (l : List Nat) : (dedupFirst l).Nodup :=
  foldl_dedup_nodup l [] List.nodup_nil

theorem dedupFirst_subset (l : List Nat) (i : Nat) (h : i ∈ dedupFirst l) : i ∈ l := by
  rcases foldl_dedup_subset l [] i h with h1 | h1
  · simp at h1
  · exact h1

theorem fallbackIdx_nodup {α : Type} (fld : α → String) (θ : ℚ) (citations : List α)
    (bot_message : String) (L : List Nat) :
    (fallbackIdx fld θ citations bot_message L).Nodup := by
  unfold fallbackIdx
  have hsub : ((citations.enum.filter
      (fun p => !(L.contains p.1) && decide (θ ≤ simMsgCI fld p.2 bot_message))).map
      Prod.fst).Sublist (citations.enum.map Prod.fst) :=
    List.Sublist.map Prod.fst (List.filter_sublist _)
  rw [List.enum_map_fst] at hsub
  exact hsub.nodup (List.nodup_range _)

theorem fallbackIdx_not_mem {α : Type} (fld : α → String) (θ : ℚ) (citations : List α)
    (bot_message : String) (L : List Nat) (i : Nat)
    (h : i ∈ fallbackIdx fld θ citations bot_message L) : i ∉ L := by
  unfold fallbackIdx at h
  rcases List.mem_map.mp h with ⟨p, hp, rfl⟩
  have hpred := List.of_mem_filter hp
  have h1 : (L.contains p.1) = false := by
    have := (Bool.and_eq_true _ _).mp hpred
    revert this
    cases L.contains p.1 <;> simp
  intro hmem
  have h2 : L.contains p.1 = true := List.elem_eq_true_of_mem hmem
  rw [h1] at h2
  exact Bool.false_ne_true h2


/-- **C2.** For every generated text and staged corpus (positive threshold),
the citation list returned by one resolution call equals the declarative
description `specCitations`: phase-1 acceptances, at most one per corpus
index, in the order their source references appear in the text (a later
reference that best-matches an already-accepted index changes neither the
earlier acceptance nor its position, by keep-first deduplication), followed by
phase-2 acceptances in corpus order; and the underlying index sequence is
duplicate-free, so the list has at most one citation per corpus index. -/
theorem c2_dedup_and_order {α : Type} (fld : α → String) (θ : ℚ)
    (citations : List α) (bot_message : String) (hθ : 0 < θ) :
    extract_citations fld θ citations bot_message
        = specCitations fld θ citations bot_message
    ∧ (dedupFirst (acceptedIdx fld θ citations (extract_refs bot_message))
        ++ fallbackIdx fld θ citations bot_message
            (dedupFirst (acceptedIdx fld θ citations (extract_refs bot_message)))).Nodup := by
  refine ⟨extract_citations_eq_spec fld θ hθ citations bot_message, ?_⟩
  rw [List.nodup_append]
  refine ⟨dedupFirst_nodup _, fallbackIdx_nodup fld θ citations bot_message _, ?_⟩
  intro a ha hb
  exact fallbackIdx_not_mem fld θ citations bot_message _ a hb ha

/-- Witness for C2: a message quoting the same title twice against a concrete
corpus. -/
theorem c2_dedup_and_order_witness :
    0 < (3/4 : ℚ)
    ∧ (extract_citations (fun r => r) (3/4) ["ab"] "\"ab\" and \"ab\""
          = specCitations (fun r => r) (3/4) ["ab"] "\"ab\" and \"ab\""
      ∧ (dedupFirst (acceptedIdx (fun r => r) (3/4) ["ab"]
            (extract_refs "\"ab\" and \"ab\""))
          ++ fallbackIdx (fun r => r) (3/4) ["ab"] "\"ab\" and \"ab\""
              (dedupFirst (acceptedIdx (fun r => r) (3/4) ["ab"]
                (extract_refs "\"ab\" and \"ab\"")))).Nodup) :=
  ⟨by norm_num,
   c2_dedup_and_order (fun r => r) (3/4) ["ab"] "\"ab\" and \"ab\"" (by norm_num)⟩

set_option maxRecDepth 100000 in
/-- **C9.** With a strictly positive threshold, every entry of the returned
citation list is one of the staged corpus records (never `none`); without that
precondition the claim fails: with threshold `0` and a quoted reference whose
best similarity over the corpus is `0`, phase 1 inserts the entry `none`,
which is not a corpus record. -/
theorem c9_entries_are_corpus_records {α : Type} (fld : α → String) (θ : ℚ)
    (citations : List α) (bot_message : String) (hθ : 0 < θ) :
    (∀ c ∈ extract_citations fld θ citations bot_message, ∃ r ∈ citations, c = some r)
    ∧ none ∈ extract_citations (fun s => s) 0 [""] "see \"ab\"" := by
  constructor
  · intro c hc
    rw [extract_citations_eq_spec fld θ hθ citations bot_message] at hc
    unfold specCitations at hc
    rcases List.mem_append.mp hc with h | h
    · rcases List.mem_map.mp h with ⟨i, hi, rfl⟩
      have hiA : i ∈ acceptedIdx fld θ citations (extract_refs bot_message) :=
        dedupFirst_subset _ i hi
      rcases List.mem_filterMap.mp hiA with ⟨name, _, hf⟩
      by_cases hm : θ ≤ maxSim fld name citations
      · rw [if_pos hm] at hf
        rcases Option.map_eq_some'.mp hf with ⟨p, hbr, hfst⟩
        have hp : p ∈ citations.enum := firstAt_mem fld name _ citations.enum p hbr
        have hval : citations[p.1]? = some p.2 := mem_enum_getElem? citations p hp
        have hmem : p.2 ∈ citations := by
          have h2 : p.2 ∈ citations.enum.map Prod.snd := List.mem_map_of_mem Prod.snd hp
          rwa [List.enum_map_snd] at h2
        exact ⟨p.2, hmem, by rw [← hfst, hval]⟩
      · rw [if_neg hm] at hf
        exact absurd hf (by simp)
    · rcases List.mem_map.mp h with ⟨i, hi, rfl⟩
      unfold fallbackIdx at hi
      rcases List.mem_map.mp hi with ⟨p, hp, rfl⟩
      have hp' : p ∈ citations.enum := List.mem_of_mem_filter hp
      have hval := mem_enum_getElem? citations p hp'
      have hmem : p.2 ∈ citations := by
        have h2 : p.2 ∈ citations.enum.map Prod.snd := List.mem_map_of_mem Prod.snd hp'
        rwa [List.enum_map_snd] at h2
      exact ⟨p.2, hmem, hval⟩
  · with_unfolding_all decide

/-- Witness for C9 at a concrete corpus, message and threshold. -/
theorem c9_entries_are_corpus_records_witness :
    0 < (3/4 : ℚ)
    ∧ ((∀ c ∈ extract_citations (fun s => s) (3/4) ["ab"] "x \"ab\"",
          ∃ r ∈ ["ab"], c = some r)
      ∧ none ∈ extract_citations (fun s => s) 0 [""] "see \"ab\"") :=
  ⟨by norm_num,
   c9_entries_are_corpus_records (fun s => s) (3/4) ["ab"] "x \"ab\"" (by norm_num)⟩


/-! ### Grounding policy (`openai.py` lines 359-366, `palm.py` lines 159-162)

The block shared verbatim by every provider `chat` method:
`if self._filter_bot_messages_without_citations and '"' in bot_message and not
bot_citations: bot_message = self._error_message_bot_message_without_citations`.
-/

/-- The no-citation filter applied to a generated reply. -/
def filterBotMessage {α : Type} (filter_enabled : Bool) (fallback_message : String)
    (bot_message : String) (bot_citations : List (Option α)) : String :=
  if filter_enabled && bot_message.data.contains '"' && bot_citations.isEmpty
  then fallback_message
  else bot_message

/-- **C3.** The grounding policy returns the fallback message exactly when the
filter is enabled, the generated text contains at least one double-quote
character, and the resolved citation list is empty; in every other case the
generated text is returned unchanged. -/
theorem c3_grounding_policy {α : Type} (filter_enabled : Bool) (fallback_message : String)
    (bot_message : String) (bot_citations : List (Option α)) :
    ((filter_enabled = true ∧ bot_message.data.contains '"' = true ∧ bot_citations = []) →
      filterBotMessage filter_enabled fallback_message bot_message bot_citations
        = fallback_message)
    ∧ (¬(filter_enabled = true ∧ bot_message.data.contains '"' = true ∧ bot_citations = []) →
      filterBotMessage filter_enabled fallback_message bot_message bot_citations
        = bot_message) := by
  unfold filterBotMessage
  constructor
  · rintro ⟨h1, h2, h3⟩
    subst h3
    have hcond : (filter_enabled && bot_message.data.contains '"' &&
        List.isEmpty ([] : List (Option α))) = true := by
      rw [h1, h2]
      rfl
    rw [if_pos hcond]
  · intro h
    have hcond : ¬((filter_enabled && bot_message.data.contains '"' &&
        bot_citations.isEmpty) = true) := by
      intro hc
      simp only [Bool.and_eq_true, List.isEmpty_iff] at hc
      exact h ⟨hc.1.1, hc.1.2, hc.2⟩
    rw [if_neg hcond]

/-- Witness for C3: the two worked examples from the spec. -/
theorem c3_grounding_policy_witness :
    filterBotMessage true "Sorry, I cannot verify that." "He said \"X\"."
        ([] : List (Option String)) = "Sorry, I cannot verify that."
    ∧ filterBotMessage true "Sorry, I cannot verify that." "no quotes here"
        ([] : List (Option String)) = "no quotes here" :=
  ⟨(c3_grounding_policy true "Sorry, I cannot verify that." "He said \"X\"."
      ([] : List (Option String))).1 ⟨rfl, by decide, rfl⟩,
   (c3_grounding_policy true "Sorry, I cannot verify that." "no quotes here"
      ([] : List (Option String))).2
     (by
        intro h
        have := h.2.1
        revert this
        decide)⟩

/-! ### Reflexivity and the method gate of `compare_strings` (C5, C6) -/

set_option maxHeartbeats 1000000 in
theorem compare_strings_val_self :
    ∀ (s m : String), m ∈ supported_fuzzy_methods → compare_strings_val s s m true = 1 := by
  intro s m hm
  have hcases : m = "ratio" ∨ m = "partial_ratio" ∨ m = "token_sort_ratio" ∨
      m = "token_set_ratio" ∨ m = "partial_token_sort_ratio" ∨
      m = "partial_token_set_ratio" := by
    simpa [supported_fuzzy_methods] using hm
  rcases hcases with rfl | rfl | rfl | rfl | rfl | rfl
  · have h : compare_strings_val s s "ratio" true = simFull s.data s.data / 100 := rfl
    rw [h, simFull_self]
    norm_num
  · have h : compare_strings_val s s "partial_ratio" true
        = simWindow s.data s.data / 100 := rfl
    rw [h, simWindow_self]
    norm_num
  · have h : compare_strings_val s s "token_sort_ratio" true
        = simTokSort s.data s.data / 100 := rfl
    rw [h, simTokSort_self]
    norm_num
  · have h : compare_strings_val s s "token_set_ratio" true
        = simTokSet s.data s.data / 100 := rfl
    rw [h, simTokSet_self]
    norm_num
  · have h : compare_strings_val s s "partial_token_sort_ratio" true
        = simWinTokSort s.data s.data / 100 := rfl
    rw [h, simWinTokSort_self]
    norm_num
  · have h : compare_strings_val s s "partial_token_set_ratio" true
        = simWinTokSet s.data s.data / 100 := rfl
    rw [h, simWinTokSet_self]
    norm_num

/-- **C5.** For every string `s` and each of the six supported fuzzy methods,
`similarity(s, s, method, case_sensitive=true)` equals `1.0`. -/
theorem c5_self_similarity_is_one (s m : String) (hm : m ∈ supported_fuzzy_methods) :
    compare_strings s s m true = Except.ok 1 := by
  unfold compare_strings
  rw [if_pos (List.elem_eq_true_of_mem hm), compare_strings_val_self s m hm]

/-- Witness for C5 at a concrete string and method. -/
theorem c5_self_similarity_is_one_witness :
    "token_set_ratio" ∈ supported_fuzzy_methods
    ∧ compare_strings "Let It Be" "Let It Be" "token_set_ratio" true = Except.ok 1 :=
  ⟨by simp [supported_fuzzy_methods],
   c5_self_similarity_is_one "Let It Be" "token_set_ratio"
     (by simp [supported_fuzzy_methods])⟩

/-- **C6.** `compare_strings` fails (the modelled `assert`) exactly when the
method name is not one of the six supported names; every successful result is
a score in `[0, 1]`.  (The embedding is a pure function of its arguments, so
determinism and absence of side effects hold by construction.) -/
theorem c6_method_gate_and_range (s1 s2 m : String) (c : Bool) :
    ((compare_strings s1 s2 m c).isOk = true ↔ m ∈ supported_fuzzy_methods)
    ∧ ∀ q : ℚ, compare_strings s1 s2 m c = Except.ok q → 0 ≤ q ∧ q ≤ 1 := by
  constructor
  · unfold compare_strings
    by_cases h : supported_fuzzy_methods.contains m
    · rw [if_pos h]
      constructor
      · intro _
        exact List.elem_iff.mp h
      · intro _
        rfl
    · rw [if_neg h]
      constructor
      · intro hok
        simp [Except.isOk, Except.toBool] at hok
      · intro hmem
        exact absurd (List.elem_eq_true_of_mem hmem) h
  · intro q hq
    unfold compare_strings at hq
    by_cases h : supported_fuzzy_methods.contains m
    · rw [if_pos h] at hq
      have hval : q = compare_strings_val s1 s2 m c := by
        cases hq
        rfl
      rw [hval]
      exact ⟨compare_strings_val_nonneg s1 s2 m c, compare_strings_val_le_one s1 s2 m c⟩
    · rw [if_neg h] at hq
      cases hq

/-- Witness for C6 applying both conjuncts at a concrete successful call. -/
theorem c6_method_gate_and_range_witness :
    ((compare_strings "ab" "cd" "ratio" true).isOk = true ↔
      "ratio" ∈ supported_fuzzy_methods)
    ∧ ∀ q : ℚ, compare_strings "ab" "cd" "ratio" true = Except.ok q → 0 ≤ q ∧ q ≤ 1 :=
  c6_method_gate_and_range "ab" "cd" "ratio" true


/-! ### The chat exchange pipeline (`BotOpenAI.chat`, `BotPaLM.chat`)

External collaborators — the two LLM calls, the JSON parse of the extracted
search parameters (plus the keyword application of `get_music_recommendations`,
which shares the same inner `try`), and the corpus lookup result — are
supplied as a `ChatOracle`, following the spec's external-interface section;
the pipeline is deterministic given their outcomes.  The mutable instance
attributes (`_citations_available`, `_chat_history`, `_openai_messages`) are
threaded explicitly; mutations performed before a failure persist, as in the
source. -/

/-- One recorded turn (`_chat_history` entry): a user entry has no
`citations` key, an assistant entry carries one. -/
structure Turn (α : Type) where
  author : String
  message : String
  citations : Option (List (Option α))
deriving DecidableEq

/-- One `_openai_messages` entry. -/
structure OpenAIMsg where
  role : String
  content : String
deriving DecidableEq

/-- Configuration drawn from settings at construction (`core.py` ctor).
`dump` models `json.dumps` on one record, used only to build the injected
prompt. -/
structure BotConfig (α : Type) where
  fld : α → String
  citation_threshold : ℚ
  filter_bot_messages_without_citations : Bool
  error_message_bot_message_without_citations : String
  error_message_general : String
  dump : α → String

/-- Mutable instance state of `BotOpenAI` relevant to one exchange. -/
structure BotState (α : Type) where
  citations_available : List α
  chat_history : List (Turn α)
  openai_messages : List OpenAIMsg
deriving DecidableEq

/-- Mutable instance state of `BotPaLM` relevant to one exchange. -/
structure PalmState (α : Type) where
  citations_available : List α
  chat_history : List (Turn α)
deriving DecidableEq

/-- Outcomes of the external calls made by one `chat` invocation:
`extract_response` is the first LLM call (structured-parameter extraction),
`inner_ok` tells whether `json.loads` plus the lookup call succeeded,
`recommendations` is the lookup result when it did, and `reply_response` is
the reply-generating LLM call (whichever branch performs it). -/
structure ChatOracle (α : Type) where
  extract_response : Except String String
  inner_ok : Bool
  recommendations : List α
  reply_response : Except String String

/-- `user_message.replace('\'', '"')` (`openai.py` line 313, `palm.py` line
112): swap every apostrophe for a double quote. -/
def replaceQuotes (s : String) : String :=
  String.mk (s.data.map (fun c => if c = '\'' then '"' else c))

/-- `" ".join(s.replace("\\n", " ").split())`: whitespace normalization. -/
def normalizeWs (s : String) : String :=
  String.mk (joinSpaces (wsTokens (s.data.map (fun c => if c = '\n' then ' ' else c))))

/-- Join strings with a separator (used for `";\\n\\n".join(...)`). -/
def joinWith (sep : String) : List String → String
  | [] => ""
  | [s] => s
  | s :: rest => s ++ sep ++ joinWith sep rest

/-- The f-string template injecting the staged corpus into the user prompt
(`openai.py` lines 336-343, `palm.py` lines 135-142). -/
def userMessagePrompt {α : Type} (dump : α → String) (user_message : String)
    (citations_available : List α) : String :=
  "\n                    User message:\n                    " ++ String.mk ['\''] ++
    user_message ++ String.mk ['\''] ++
    "\n\n                    Available options:\n                    " ++
    joinWith ";\n\n" (citations_available.map dump) ++
    "\n                    "

/-- The `try`/`except` body of `BotOpenAI.chat` (`openai.py` lines 316-357),
beginning after the quote replacement: produces the raw `(bot_message,
bot_citations)` pair together with the state as mutated so far.  `user_message`
is the already-replaced message. -/
def chatOpenAIBody {α : Type} (cfg : BotConfig α) (st : BotState α) (user_message : String)
    (O : ChatOracle α) : String × List (Option α) × BotState α :=
  match O.extract_response with
  | Except.error _ => (cfg.error_message_general, ([] : List (Option α)), st)
  | Except.ok _content =>
    let st1 := if O.inner_ok then { st with citations_available := O.recommendations } else st
    if st1.citations_available.isEmpty then
      let st2 := { st1 with openai_messages :=
        st1.openai_messages ++ [OpenAIMsg.mk "user" user_message] }
      match O.reply_response with
      | Except.error _ => (cfg.error_message_general, [], st2)
      | Except.ok reply => (reply, [], st2)
    else
      let st2 := { st1 with openai_messages :=
        st1.openai_messages ++
          [OpenAIMsg.mk "user"
            (userMessagePrompt cfg.dump user_message st1.citations_available)] }
      match O.reply_response with
      | Except.error _ => (cfg.error_message_general, [], st2)
      | Except.ok reply =>
        (reply,
         extract_citations cfg.fld cfg.citation_threshold st1.citations_available reply,
         st2)

/-- `BotOpenAI.chat` (`openai.py` lines 293-377): quote replacement, the
`try`/`except` body, the no-citation filter, the assistant append to
`_openai_messages` (pre-normalization), whitespace normalization, and the two
history appends. -/
def chatOpenAI {α : Type} (cfg : BotConfig α) (st : BotState α) (user_message : String)
    (O : ChatOracle α) : (String × List (Option α)) × BotState α :=
  let user_message := replaceQuotes user_message
  let r := chatOpenAIBody cfg st user_message O
  let bot_message := filterBotMessage cfg.filter_bot_messages_without_citations
    cfg.error_message_bot_message_without_citations r.1 r.2.1
  let st4 := { r.2.2 with openai_messages :=
    (r.2.2).openai_messages ++ [OpenAIMsg.mk "assistant" bot_message] }
  let bot_message := normalizeWs bot_message
  ((bot_message, r.2.1),
   { st4 with chat_history := st4.chat_history ++
      [Turn.mk "user" user_message none, Turn.mk "assistant" bot_message (some r.2.1)] })

/-- The `try`/`except` body of `BotPaLM.chat` (`palm.py` lines 115-157):
identical pipeline without the `_openai_messages` log (the PaLM chat session
object is external). -/
def chatPaLMBody {α : Type} (cfg : BotConfig α) (st : PalmState α) (_user_message : String)
    (O : ChatOracle α) : String × List (Option α) × PalmState α :=
  match O.extract_response with
  | Except.error _ => (cfg.error_message_general, ([] : List (Option α)), st)
  | Except.ok _content =>
    let st1 := if O.inner_ok then { st with citations_available := O.recommendations } else st
    if st1.citations_available.isEmpty then
      match O.reply_response with
      | Except.error _ => (cfg.error_message_general, [], st1)
      | Except.ok reply => (reply, [], st1)
    else
      match O.reply_response with
      | Except.error _ => (cfg.error_message_general, [], st1)
      | Except.ok reply =>
        (reply,
         extract_citations cfg.fld cfg.citation_threshold st1.citations_available reply,
         st1)

/-- `BotPaLM.chat` (`palm.py` lines 93-169). -/
def chatPaLM {α : Type} (cfg : BotConfig α) (st : PalmState α) (user_message : String)
    (O : ChatOracle α) : (String × List (Option α)) × PalmState α :=
  let user_message := replaceQuotes user_message
  let r := chatPaLMBody cfg st user_message O
  let bot_message := filterBotMessage cfg.filter_bot_messages_without_citations
    cfg.error_message_bot_message_without_citations r.1 r.2.1
  let bot_message := normalizeWs bot_message
  ((bot_message, r.2.1),
   { r.2.2 with chat_history := (r.2.2).chat_history ++
      [Turn.mk "user" user_message none, Turn.mk "assistant" bot_message (some r.2.1)] })

theorem chatOpenAIBody_chat_history {α : Type} (cfg : BotConfig α) (st : BotState α)
    (user_message : String) (O : ChatOracle α) :
    ((chatOpenAIBody cfg st user_message O).2.2).chat_history = st.chat_history := by
  unfold chatOpenAIBody
  cases O.extract_response with
  | error e => rfl
  | ok content =>
    by_cases hI : O.inner_ok = true
    · rw [if_pos hI]
      try dsimp only
      repeat' split
      all_goals rfl
    · rw [if_neg hI]
      try dsimp only
      repeat' split
      all_goals rfl

theorem chatPaLMBody_chat_history {α : Type} (cfg : BotConfig α) (st : PalmState α)
    (user_message : String) (O : ChatOracle α) :
    ((chatPaLMBody cfg st user_message O).2.2).chat_history = st.chat_history := by
  unfold chatPaLMBody
  cases O.extract_response with
  | error e => rfl
  | ok content =>
    by_cases hI : O.inner_ok = true
    · rw [if_pos hI]
      try dsimp only
      repeat' split
      all_goals rfl
    · rw [if_neg hI]
      try dsimp only
      repeat' split
      all_goals rfl

theorem chatOpenAIBody_fail {α : Type} (cfg : BotConfig α) (st : BotState α)
    (user_message : String) (O : ChatOracle α)
    (h : O.extract_response.isOk = false ∨ O.reply_response.isOk = false) :
    (chatOpenAIBody cfg st user_message O).1 = cfg.error_message_general
    ∧ (chatOpenAIBody cfg st user_message O).2.1 = [] := by
  unfold chatOpenAIBody
  cases hE : O.extract_response with
  | error e => exact ⟨rfl, rfl⟩
  | ok content =>
    have hR : O.reply_response.isOk = false := by
      rcases h with h1 | h1
      · rw [hE] at h1
        simp [Except.isOk, Except.toBool] at h1
      · exact h1
    cases hRep : O.reply_response with
    | error e =>
      by_cases hI : O.inner_ok = true
      · rw [if_pos hI]
        try dsimp only
        repeat' split
        all_goals exact ⟨rfl, rfl⟩
      · rw [if_neg hI]
        try dsimp only
        repeat' split
        all_goals exact ⟨rfl, rfl⟩
    | ok reply =>
      rw [hRep] at hR
      simp [Except.isOk, Except.toBool] at hR

theorem chatPaLMBody_fail {α : Type} (cfg : BotConfig α) (st : PalmState α)
    (user_message : String) (O : ChatOracle α)
    (h : O.extract_response.isOk = false ∨ O.reply_response.isOk = false) :
    (chatPaLMBody cfg st user_message O).1 = cfg.error_message_general
    ∧ (chatPaLMBody cfg st user_message O).2.1 = [] := by
  unfold chatPaLMBody
  cases hE : O.extract_response with
  | error e => exact ⟨rfl, rfl⟩
  | ok content =>
    have hR : O.reply_response.isOk = false := by
      rcases h with h1 | h1
      · rw [hE] at h1
        simp [Except.isOk, Except.toBool] at h1
      · exact h1
    cases hRep : O.reply_response with
    | error e =>
      by_cases hI : O.inner_ok = true
      · rw [if_pos hI]
        try dsimp only
        repeat' split
        all_goals exact ⟨rfl, rfl⟩
      · rw [if_neg hI]
        try dsimp only
        repeat' split
        all_goals exact ⟨rfl, rfl⟩
    | ok reply =>
      rw [hRep] at hR
      simp [Except.isOk, Except.toBool] at hR

theorem chatOpenAIBody_citations_available {α : Type} (cfg : BotConfig α) (st : BotState α)
    (user_message : String) (O : ChatOracle α) :
    ((chatOpenAIBody cfg st user_message O).2.2).citations_available
      = if O.extract_response.isOk && O.inner_ok then O.recommendations
        else st.citations_available := by
  unfold chatOpenAIBody
  cases O.extract_response with
  | error e => simp [Except.isOk, Except.toBool]
  | ok content =>
    simp only [Except.isOk, Except.toBool, Bool.true_and]
    by_cases hI : O.inner_ok = true
    · rw [if_pos hI]
      try dsimp only
      repeat' split
      all_goals rfl
    · rw [if_neg hI]
      try dsimp only
      repeat' split
      all_goals rfl

theorem chatPaLMBody_citations_available {α : Type} (cfg : BotConfig α) (st : PalmState α)
    (user_message : String) (O : ChatOracle α) :
    ((chatPaLMBody cfg st user_message O).2.2).citations_available
      = if O.extract_response.isOk && O.inner_ok then O.recommendations
        else st.citations_available := by
  unfold chatPaLMBody
  cases O.extract_response with
  | error e => simp [Except.isOk, Except.toBool]
  | ok content =>
    simp only [Except.isOk, Except.toBool, Bool.true_and]
    by_cases hI : O.inner_ok = true
    · rw [if_pos hI]
      try dsimp only
      repeat' split
      all_goals rfl
    · rw [if_neg hI]
      try dsimp only
      repeat' split
      all_goals rfl


theorem map_quotes_eq_self_iff :
    ∀ l : List Char,
      (l.map (fun c => if c = '\'' then '"' else c) = l) ↔ (l.contains '\'' = false) := by
  intro l
  induction l with
  | nil => simp
  | cons c l' ih =>
    simp only [List.map_cons, List.cons.injEq, List.contains_cons]
    constructor
    · rintro ⟨h1, h2⟩
      have hc : ¬c = '\'' := by
        intro hcc
        subst hcc
        simp at h1
      have hbeq : ('\'' == c) = false := beq_eq_false_iff_ne.mpr (fun h => hc h.symm)
      rw [hbeq, Bool.false_or]
      exact ih.mp h2
    · intro h
      rcases Bool.or_eq_false_iff.mp h with ⟨h1, h2⟩
      have hc : ¬c = '\'' := by
        intro hcc
        subst hcc
        simp at h1
      exact ⟨by simp [hc], ih.mpr h2⟩

theorem replaceQuotes_ne_iff (s : String) :
    replaceQuotes s ≠ s ↔ s.data.contains '\'' = true := by
  unfold replaceQuotes
  have hmk : (String.mk (s.data.map (fun c => if c = '\'' then '"' else c)) = s)
      ↔ (s.data.map (fun c => if c = '\'' then '"' else c) = s.data) := by
    constructor
    · intro h
      have := congrArg String.data h
      simpa using this
    · intro h
      cases s
      simpa using congrArg String.mk h
  rw [Ne, hmk, map_quotes_eq_self_iff]
  cases h : s.data.contains '\'' <;> simp

/-- **C4 (amended).** A chat exchange never propagates an internal failure:
for both embedded providers, every exchange appends exactly one user turn
(carrying the quote-replaced message) and one assistant turn (carrying the
returned text and citations) to the conversation log; and whenever one of the
LLM calls fails, the returned (and hence recorded) pair is the
whitespace-normalized generic fallback message as post-processed by the
no-citation filter — i.e. the no-citation fallback instead whenever the filter
is enabled and the generic fallback itself contains a double quote — together
with an empty citation list. -/
theorem c4_failure_yields_fallback_turn {α : Type} (cfg : BotConfig α) (st : BotState α)
    (stp : PalmState α) (user_message : String) (O : ChatOracle α) :
    ((chatOpenAI cfg st user_message O).2).chat_history
        = st.chat_history ++
          [Turn.mk "user" (replaceQuotes user_message) none,
           Turn.mk "assistant" ((chatOpenAI cfg st user_message O).1).1
             (some ((chatOpenAI cfg st user_message O).1).2)]
    ∧ ((chatPaLM cfg stp user_message O).2).chat_history
        = stp.chat_history ++
          [Turn.mk "user" (replaceQuotes user_message) none,
           Turn.mk "assistant" ((chatPaLM cfg stp user_message O).1).1
             (some ((chatPaLM cfg stp user_message O).1).2)]
    ∧ ((O.extract_response.isOk = false ∨ O.reply_response.isOk = false) →
        (chatOpenAI cfg st user_message O).1
            = (normalizeWs (filterBotMessage cfg.filter_bot_messages_without_citations
                  cfg.error_message_bot_message_without_citations
                  cfg.error_message_general ([] : List (Option α))), [])
        ∧ (chatPaLM cfg stp user_message O).1
            = (normalizeWs (filterBotMessage cfg.filter_bot_messages_without_citations
                  cfg.error_message_bot_message_without_citations
                  cfg.error_message_general ([] : List (Option α))), [])) := by
  refine ⟨?_, ?_, ?_⟩
  · show (chatOpenAIBody cfg st (replaceQuotes user_message) O).2.2.chat_history ++
        [Turn.mk "user" (replaceQuotes user_message) none,
         Turn.mk "assistant" ((chatOpenAI cfg st user_message O).1).1
           (some ((chatOpenAI cfg st user_message O).1).2)]
      = st.chat_history ++
        [Turn.mk "user" (replaceQuotes user_message) none,
         Turn.mk "assistant" ((chatOpenAI cfg st user_message O).1).1
           (some ((chatOpenAI cfg st user_message O).1).2)]
    rw [chatOpenAIBody_chat_history]
  · show (chatPaLMBody cfg stp (replaceQuotes user_message) O).2.2.chat_history ++
        [Turn.mk "user" (replaceQuotes user_message) none,
         Turn.mk "assistant" ((chatPaLM cfg stp user_message O).1).1
           (some ((chatPaLM cfg stp user_message O).1).2)]
      = stp.chat_history ++
        [Turn.mk "user" (replaceQuotes user_message) none,
         Turn.mk "assistant" ((chatPaLM cfg stp user_message O).1).1
           (some ((chatPaLM cfg stp user_message O).1).2)]
    rw [chatPaLMBody_chat_history]
  · intro h
    have hO := chatOpenAIBody_fail cfg st (replaceQuotes user_message) O h
    have hP := chatPaLMBody_fail cfg stp (replaceQuotes user_message) O h
    constructor
    · show (normalizeWs (filterBotMessage cfg.filter_bot_messages_without_citations
          cfg.error_message_bot_message_without_citations
          (chatOpenAIBody cfg st (replaceQuotes user_message) O).1
          (chatOpenAIBody cfg st (replaceQuotes user_message) O).2.1),
          (chatOpenAIBody cfg st (replaceQuotes user_message) O).2.1)
        = (normalizeWs (filterBotMessage cfg.filter_bot_messages_without_citations
            cfg.error_message_bot_message_without_citations
            cfg.error_message_general ([] : List (Option α))), [])
      rw [hO.1, hO.2]
    · show (normalizeWs (filterBotMessage cfg.filter_bot_messages_without_citations
          cfg.error_message_bot_message_without_citations
          (chatPaLMBody cfg stp (replaceQuotes user_message) O).1
          (chatPaLMBody cfg stp (replaceQuotes user_message) O).2.1),
          (chatPaLMBody cfg stp (replaceQuotes user_message) O).2.1)
        = (normalizeWs (filterBotMessage cfg.filter_bot_messages_without_citations
            cfg.error_message_bot_message_without_citations
            cfg.error_message_general ([] : List (Option α))), [])
      rw [hP.1, hP.2]

/-- Fixture: a configuration whose generic error message contains a double
quote, with the no-citation filter enabled. -/
def sampleCfg : BotConfig String :=
  ⟨fun r => r, 3/4, true, "NOCITE", "bad \"x\"", fun r => r⟩

/-- Fixture: a fresh OpenAI-bot state. -/
def emptyBotState : BotState String := ⟨[], [], []⟩

/-- Fixture: a fresh PaLM-bot state. -/
def emptyPalmState : PalmState String := ⟨[], []⟩

/-- Fixture: both LLM calls fail. -/
def failOracle : ChatOracle String := ⟨Except.error "boom", false, [], Except.error "boom"⟩

/-- Fixture: state carrying a corpus staged by a previous exchange. -/
def staleBotState : BotState String := ⟨["OLD"], [], []⟩

/-- Fixture: state carrying a corpus staged by a previous exchange (PaLM). -/
def stalePalmState : PalmState String := ⟨["OLD"], []⟩

/-- Fixture: the first LLM call answers non-JSON text (the inner parse fails),
and the reply call succeeds. -/
def staleOracle : ChatOracle String := ⟨Except.ok "not json", false, [], Except.ok "y"⟩

/-- Counterexample to C4 as stated: when the configured generic fallback
itself contains a double quote and the filter is enabled, a failed exchange
returns the no-citation fallback, not the generic fallback message. -/
theorem c4_counterexample :
    ((chatOpenAI sampleCfg emptyBotState "hi" failOracle).1).1 = "NOCITE"
    ∧ "NOCITE" ≠ sampleCfg.error_message_general := by
  constructor
  · with_unfolding_all decide
  · with_unfolding_all decide

/-- Witness for C4 (amended) at concrete states and a failing oracle. -/
theorem c4_failure_yields_fallback_turn_witness :
    (failOracle.extract_response.isOk = false ∨ failOracle.reply_response.isOk = false)
    ∧ ((chatOpenAI sampleCfg emptyBotState "hi" failOracle).1
          = (normalizeWs (filterBotMessage sampleCfg.filter_bot_messages_without_citations
              sampleCfg.error_message_bot_message_without_citations
              sampleCfg.error_message_general ([] : List (Option String))), [])
      ∧ (chatPaLM sampleCfg emptyPalmState "hi" failOracle).1
          = (normalizeWs (filterBotMessage sampleCfg.filter_bot_messages_without_citations
              sampleCfg.error_message_bot_message_without_citations
              sampleCfg.error_message_general ([] : List (Option String))), [])) :=
  ⟨Or.inl rfl,
   (c4_failure_yields_fallback_turn sampleCfg emptyBotState emptyPalmState "hi"
      failOracle).2.2 (Or.inl rfl)⟩

/-- **C7 (amended).** The staged corpus is replaced by the fresh lookup result
exactly when the parameter-extraction LLM call succeeds and its output parses;
when the extraction call fails or its output does not parse, the previously
staged corpus persists across the exchange (and is reused for grounding), for
both embedded providers. -/
theorem c7_corpus_staging {α : Type} (cfg : BotConfig α) (st : BotState α)
    (stp : PalmState α) (user_message : String) (O : ChatOracle α) :
    (O.extract_response.isOk = true ∧ O.inner_ok = true →
      ((chatOpenAI cfg st user_message O).2).citations_available = O.recommendations
      ∧ ((chatPaLM cfg stp user_message O).2).citations_available = O.recommendations)
    ∧ (O.extract_response.isOk = false ∨ O.inner_ok = false →
      ((chatOpenAI cfg st user_message O).2).citations_available = st.citations_available
      ∧ ((chatPaLM cfg stp user_message O).2).citations_available
          = stp.citations_available) := by
  have hA := chatOpenAIBody_citations_available cfg st (replaceQuotes user_message) O
  have hB := chatPaLMBody_citations_available cfg stp (replaceQuotes user_message) O
  constructor
  · rintro ⟨h1, h2⟩
    constructor
    · show (chatOpenAIBody cfg st (replaceQuotes user_message) O).2.2.citations_available
          = O.recommendations
      rw [hA, h1, h2]
      simp
    · show (chatPaLMBody cfg stp (replaceQuotes user_message) O).2.2.citations_available
          = O.recommendations
      rw [hB, h1, h2]
      simp
  · intro h
    have hcond : (O.extract_response.isOk && O.inner_ok) = false := by
      rcases h with h1 | h1 <;> simp [h1]
    constructor
    · show (chatOpenAIBody cfg st (replaceQuotes user_message) O).2.2.citations_available
          = st.citations_available
      rw [hA, hcond]
      rfl
    · show (chatPaLMBody cfg stp (replaceQuotes user_message) O).2.2.citations_available
          = stp.citations_available
      rw [hB, hcond]
      rfl

/-- Counterexample to C7 as stated: an exchange whose structured-parameter
output fails to parse keeps the corpus staged by the previous exchange — the
CandidateSet is neither created fresh nor discarded. -/
theorem c7_counterexample :
    ((chatOpenAI sampleCfg staleBotState "m" staleOracle).2).citations_available
        = staleBotState.citations_available
    ∧ staleBotState.citations_available ≠ [] := by
  constructor
  · with_unfolding_all decide
  · with_unfolding_all decide

/-- Witness for C7 (amended) at concrete states and oracle. -/
theorem c7_corpus_staging_witness :
    (staleOracle.extract_response.isOk = false ∨ staleOracle.inner_ok = false)
    ∧ (((chatOpenAI sampleCfg staleBotState "m" staleOracle).2).citations_available
          = staleBotState.citations_available
      ∧ ((chatPaLM sampleCfg stalePalmState "m" staleOracle).2).citations_available
          = stalePalmState.citations_available) :=
  ⟨Or.inr rfl,
   (c7_corpus_staging sampleCfg staleBotState stalePalmState "m" staleOracle).2
     (Or.inr rfl)⟩

/-- **C10 (amended).** Both embedded chat methods, before any other
processing, replace every apostrophe in the user message with a double quote:
the user turn recorded in the conversation history carries exactly the
replaced message, and the replaced message differs from the verbatim user
input precisely when the input contains an apostrophe. -/
theorem c10_apostrophe_replacement {α : Type} (cfg : BotConfig α) (st : BotState α)
    (stp : PalmState α) (user_message : String) (O : ChatOracle α) :
    ((chatOpenAI cfg st user_message O).2).chat_history
        = st.chat_history ++
          [Turn.mk "user" (replaceQuotes user_message) none,
           Turn.mk "assistant" ((chatOpenAI cfg st user_message O).1).1
             (some ((chatOpenAI cfg st user_message O).1).2)]
    ∧ ((chatPaLM cfg stp user_message O).2).chat_history
        = stp.chat_history ++
          [Turn.mk "user" (replaceQuotes user_message) none,
           Turn.mk "assistant" ((chatPaLM cfg stp user_message O).1).1
             (some ((chatPaLM cfg stp user_message O).1).2)]
    ∧ (replaceQuotes user_message ≠ user_message
        ↔ user_message.data.contains '\'' = true) := by
  refine ⟨?_, ?_, replaceQuotes_ne_iff user_message⟩
  · show (chatOpenAIBody cfg st (replaceQuotes user_message) O).2.2.chat_history ++
        [Turn.mk "user" (replaceQuotes user_message) none,
         Turn.mk "assistant" ((chatOpenAI cfg st user_message O).1).1
           (some ((chatOpenAI cfg st user_message O).1).2)]
      = st.chat_history ++
        [Turn.mk "user" (replaceQuotes user_message) none,
         Turn.mk "assistant" ((chatOpenAI cfg st user_message O).1).1
           (some ((chatOpenAI cfg st user_message O).1).2)]
    rw [chatOpenAIBody_chat_history]
  · show (chatPaLMBody cfg stp (replaceQuotes user_message) O).2.2.chat_history ++
        [Turn.mk "user" (replaceQuotes user_message) none,
         Turn.mk "assistant" ((chatPaLM cfg stp user_message O).1).1
           (some ((chatPaLM cfg stp user_message O).1).2)]
      = stp.chat_history ++
        [Turn.mk "user" (replaceQuotes user_message) none,
         Turn.mk "assistant" ((chatPaLM cfg stp user_message O).1).1
           (some ((chatPaLM cfg stp user_message O).1).2)]
    rw [chatPaLMBody_chat_history]

/-- Counterexample to C10 as stated: for an apostrophe-free user message the
recorded user turn *is* the verbatim user input. -/
theorem c10_counterexample :
    ((chatOpenAI sampleCfg emptyBotState "hi" failOracle).2).chat_history
      = [Turn.mk "user" "hi" none, Turn.mk "assistant" "NOCITE" (some [])] := by
  with_unfolding_all decide

/-! ### Turn-alternation adjustment (C8)

Modelled from the spec: the spec describes an adjusted-history view for
providers requiring strict user/assistant alternation ("if the history's
length is even ... drop the oldest turn before submission; this is a
correction applied at the boundary, not a log mutation"), but no code under
`src/` implements it — no caller drops turns from a history view. -/

/-- Modelled from the spec: the adjusted-history view submitted to a
strict-alternation provider. -/
def adjustHistory {α : Type} (history : List (Turn α)) : List (Turn α) :=
  if history.length % 2 = 0 then history.drop 1 else history

/-- Fixture: the claim's worked example, 3 recorded turns
user/assistant/user. -/
def threeTurnHistory : List (Turn String) :=
  [Turn.mk "user" "a" none, Turn.mk "assistant" "b" (some []), Turn.mk "user" "c" none]

/-- Counterexample to C8's worked example: after 3 recorded turns the length
is odd, so the adjustment mandated by the claim's own rule ("if the recorded
history's length is even, drop the oldest") leaves the history unchanged and
does not yield the 2-turn suffix the example demands. -/
theorem c8_counterexample :
    adjustHistory threeTurnHistory = threeTurnHistory
    ∧ adjustHistory threeTurnHistory ≠ threeTurnHistory.drop 1 := by
  constructor
  · rfl
  · decide

/-- **C8 (amended).** Before submission to a strict-alternation provider, the
adjusted view drops the oldest turn exactly when the recorded history's
length is even (after an odd number of recorded turns, such as the 3-turn
example, the view is the history itself), and the adjustment never mutates or
truncates the underlying log: the view is always a suffix of it. -/
theorem c8_alternation_adjustment {α : Type} (history : List (Turn α)) :
    (history.length % 2 = 0 → adjustHistory history = history.drop 1)
    ∧ (history.length % 2 ≠ 0 → adjustHistory history = history)
    ∧ adjustHistory history <:+ history := by
  refine ⟨?_, ?_, ?_⟩
  · intro h
    simp [adjustHistory, h]
  · intro h
    simp [adjustHistory, h]
  · unfold adjustHistory
    split
    · exact List.drop_suffix 1 history
    · exact List.suffix_refl history

/-- Witness for C8 (amended) at the example history. -/
theorem c8_alternation_adjustment_witness :
    threeTurnHistory.length % 2 ≠ 0 ∧ adjustHistory threeTurnHistory = threeTurnHistory :=
  ⟨by decide, (c8_alternation_adjustment threeTurnHistory).2.1 (by decide)⟩

end GenAIChat
